/-
Verification of the unzippy zip-extraction / integrity-verification / safe-deletion
workflow (src/unzippy.py) against its natural-language specification.

Shallow embedding conventions:
* Filesystem paths are lists of path components (List String); the Python code's
  string paths with "/" separators are modelled componentwise.
* The filesystem is an explicit state record: an association list from file paths
  to byte contents (bytes as Nat, 0..255), a list of existing directories, a
  symlink-resolution table (modelling Path.resolve), and a set of paths whose
  os.remove call fails (modelling OSError raised by the removal syscall).
* A zip archive as seen through the zipfile module is either invalid (BadZipFile
  on open) or a list of entries, each carrying its name, stored CRC and data.
* A mid-extraction I/O exception (the "except Exception" branch of
  UnzipCommand.unzip) is modelled by an optional index ioFailAt: the exception is
  raised while extracting the entry at that index, so entries before it are on
  disk and the loop aborts there.
* Console output, logging, tqdm progress and rich rendering are display-only and
  not modelled; the magic.from_file MIME sniffer is an external collaborator and
  is passed in as a function parameter.
-/
import Mathlib

namespace Unzippy

/-- Lookup in an association list keyed by paths, i.e. a Python dict access
d.get(k). Returns the first binding; the update operations below keep keys
unique the same way a dict does. -/
def keyFind {α : Type} : List (List String × α) → List String → Option α
  | [], _ => none
  | e :: rest, k => if e.1 = k then some e.2 else keyFind rest k

/-- Python dict membership test: k in d. -/
def keyMem {α : Type} (m : List (List String × α)) (k : List String) : Bool :=
  (keyFind m k).isSome

/-- Python dict assignment d[k] = v: overwrite in place if the key is present
(keeping insertion order), otherwise append at the end. -/
def keySet {α : Type} (m : List (List String × α)) (k : List String) (v : α) :
    List (List String × α) :=
  if keyMem m k then m.map (fun e => if e.1 = k then (e.1, v) else e)
  else m ++ [(k, v)]

/-- Boolean test that d is an initial segment of p (p lies at or under
directory d when it is, and is strictly longer). -/
def startsWith : List String → List String → Bool
  | [], _ => true
  | _ :: _, [] => false
  | a :: as, b :: bs => if a = b then startsWith as bs else false

/-- Filesystem state. files: path to byte content; dirs: existing directories;
resolveLinks: symlink table consulted by Path.resolve (identity when a path has
no entry); failRemove: paths on which the os.remove syscall raises. -/
structure FS where
  files : List (List String × List Nat)
  dirs : List (List String)
  resolveLinks : List (List String × List String)
  failRemove : List (List String)
deriving DecidableEq

/-- Path(p).resolve(): follow the symlink table, identity otherwise. -/
def resolvePath (fs : FS) (p : List String) : List String :=
  (keyFind fs.resolveLinks p).getD p

/-- Path(p).is_file(). -/
def isFile (fs : FS) (p : List String) : Bool :=
  (keyFind fs.files p).isSome

/-- Path(p).is_dir(). -/
def isDir (fs : FS) (p : List String) : Bool :=
  decide (p ∈ fs.dirs)

/-- os.path.getsize(p): byte size of the file at p. -/
def getsize (fs : FS) (p : List String) : Nat :=
  ((keyFind fs.files p).getD []).length

/-- The nonempty initial segments of a path, shortest first: the chain of
directories that mkdir(parents=True) creates. -/
def prefixesOf (d : List String) : List (List String) :=
  (List.range d.length).map (fun i => d.take (i + 1))

/-- Append a directory to the directory list unless already present
(exist_ok=True semantics). -/
def insertDir (ds : List (List String)) (q : List String) : List (List String) :=
  if q ∈ ds then ds else ds ++ [q]

/-- Path(d).mkdir(parents=True, exist_ok=True). -/
def mkdirP (fs : FS) (d : List String) : FS :=
  { fs with dirs := (prefixesOf d).foldl insertDir fs.dirs }

/-- Write byte content to a file path, creating parent directories as
zipfile extraction does; an existing file at that path is overwritten. -/
def writeFile (fs : FS) (p : List String) (data : List Nat) : FS :=
  { fs with
    files := keySet fs.files p data,
    dirs := (prefixesOf (p.dropLast)).foldl insertDir fs.dirs }

/-- Remove the file binding at path p from the filesystem. -/
def removeFile (fs : FS) (p : List String) : FS :=
  { fs with files := fs.files.filter (fun e => !(decide (e.1 = p))) }

/-- os.remove(p): none models the call raising OSError (caught by the caller);
otherwise the file binding is gone. -/
def osRemove (fs : FS) (p : List String) : Option FS :=
  if p ∈ fs.failRemove then none else some (removeFile fs p)

/-- The index of the last dot character in a component's character list. -/
def lastDotIdx : List Char → Option Nat
  | [] => none
  | c :: rest =>
    match lastDotIdx rest with
    | some i => some (i + 1)
    | none => if c = '.' then some 0 else none

/-- Path(name).stem for a single path component, following pathlib: the part
before the final dot, unless the dot is the first or the last character. -/
def pathStem (name : String) : String :=
  let cs := name.data
  match lastDotIdx cs with
  | some i => if 0 < i ∧ i < cs.length - 1 then String.mk (cs.take i) else name
  | none => name

/-- self.target_dir / self.zip_path.stem: the extraction destination directory
both UnzipCommand.unzip and TestUnzipCommand.execute compute. -/
def extractionDirOf (targetDir zipPath : List String) : List String :=
  targetDir ++ [pathStem (zipPath.getLastD "")]

/-- One entry of the archive as zipfile exposes it: filename (in components),
the CRC stored in the archive's central directory, the entry's data, and
whether the entry is a directory entry. -/
structure ZipEntry where
  filename : List String
  crc : Nat
  data : List Nat
  isEntryDir : Bool
deriving DecidableEq

/-- A zip archive as seen through zipfile.ZipFile: invalid raises BadZipFile on
open, valid exposes the entry list (infolist order). -/
inductive ZipData where
  | invalid : ZipData
  | valid : List ZipEntry → ZipData
deriving DecidableEq

/-- Find the entry with the given name, scanning front to back. -/
def findEntry : List ZipEntry → List String → Option ZipEntry
  | [], _ => none
  | e :: rest, p => if e.filename = p then some e else findEntry rest p

/-- CRC-32 single bit round, polynomial 0xEDB88320 (the zlib.crc32 algorithm). -/
def crc32Round (c : Nat) : Nat :=
  if c &&& 1 = 1 then (c >>> 1) ^^^ 0xEDB88320 else c >>> 1

/-- Iterate the CRC-32 round n times. -/
def crc32Rounds : Nat → Nat → Nat
  | 0, c => c
  | n + 1, c => crc32Rounds n (crc32Round c)

/-- zlib.crc32 over a byte list: xor each byte in (reduced mod 256, the byte
width), run 8 rounds, with the standard pre- and post-complement. -/
def crc32 (data : List Nat) : Nat :=
  (data.foldl (fun c b => crc32Rounds 8 (c ^^^ (b % 256))) 0xFFFFFFFF) ^^^ 0xFFFFFFFF

/-- calculate_file_checksum: zlib.crc32 of the file's bytes masked with
0xFFFFFFFF (src/unzippy.py line 263). The file-open/read I/O is elided; the
function is applied to the file's byte content. -/
def calculate_file_checksum (data : List Nat) : Nat :=
  crc32 data &&& 0xFFFFFFFF

/-- get_zip_checksum: zip_ref.getinfo(file_path).CRC, none on KeyError or
BadZipFile. ZipFile's name index keeps the last of duplicate entries, hence
the reversed scan. -/
def get_zip_checksum (z : ZipData) (p : List String) : Option Nat :=
  match z with
  | .invalid => none
  | .valid entries => (findEntry entries.reverse p).map (fun e => e.crc)

/-- safe_delete_file (src/unzippy.py lines 36-50): resolve the path, re-check
that it is a regular file (warn and return False otherwise, no removal), then
os.remove it; any exception from the removal is caught and yields False with
the filesystem untouched. The function is total: it never raises. -/
def safe_delete_file (fs : FS) (p : List String) : Bool × FS :=
  let rp := resolvePath fs p
  if !(isFile fs rp) then (false, fs)
  else
    match osRemove fs rp with
    | none => (false, fs)
    | some fs1 => (true, fs1)

/-- The two booleans of info['success_indicators']. -/
structure SuccessIndicators where
  files_extracted : Bool
  no_errors : Bool
deriving DecidableEq

/-- One value of the info['checksums'] dict: the archive-declared CRC and the
freshly computed CRC, each possibly None. -/
structure ChecksumPair where
  zip : Option Nat
  extracted : Option Nat
deriving DecidableEq

instance : Nonempty ChecksumPair := ⟨{ zip := none, extracted := none }⟩

/-- The info dict built by analyze_extracted_content. -/
structure Info where
  total_files : Nat
  total_folders : Nat
  file_types : List (String × Nat)
  total_size : Nat
  largest_file : List String × Nat
  success_indicators : SuccessIndicators
  checksums : List (List String × ChecksumPair)
  zip_path : List String
  extraction_dir : List String
  zip_size : Nat
deriving DecidableEq

/-- defaultdict(int) increment of the file-type counter. -/
def bumpType (m : List (String × Nat)) (t : String) : List (String × Nat) :=
  if m.any (fun e => e.1 = t) then
    m.map (fun e => if e.1 = t then (e.1, e.2 + 1) else e)
  else m ++ [(t, 1)]

/-- Replace the 'extracted' field of a checksum record. -/
def withExtracted (p : ChecksumPair) (cs : Nat) : ChecksumPair :=
  { p with extracted := some cs }

/-- Update only the 'extracted' field of the checksum record at key k when the
key is already present, else insert a fresh record with zip = None
(the if/else of analyze_file, src/unzippy.py lines 278-285). -/
def setExtracted (m : List (List String × ChecksumPair)) (k : List String)
    (cs : Nat) : List (List String × ChecksumPair) :=
  if keyMem m k then
    m.map (fun e => if e.1 = k then (e.1, withExtracted e.2 cs) else e)
  else m ++ [(k, { zip := none, extracted := some cs })]

/-- analyze_file (src/unzippy.py lines 267-285): bump the aggregates, keep the
largest file under strict comparison, and record the extracted checksum. The
file's size is its byte length and its type comes from the MIME sniffer. -/
def analyze_file (data : List Nat) (relative_path : List String)
    (mime : List Nat → String) (info : Info) : Info :=
  let file_size := data.length
  let file_type := mime data
  let info1 := { info with
    total_files := info.total_files + 1,
    file_types := bumpType info.file_types file_type,
    total_size := info.total_size + file_size }
  let info2 :=
    if file_size > info1.largest_file.2 then
      { info1 with largest_file := (relative_path, file_size) }
    else info1
  let cs := calculate_file_checksum data
  { info2 with checksums := setExtracted info2.checksums relative_path cs }

/-- The files the os.walk loop of analyze_extracted_content visits: every file
strictly below target_dir, keyed by its path relative to target_dir, paired
with its content. Traversal order is the filesystem's stored order. -/
def walkFiles (fs : FS) (dir : List String) : List (List String × List Nat) :=
  (fs.files.filter
      (fun e => startsWith dir e.1 && decide (dir.length < e.1.length))).map
    (fun e => (e.1.drop dir.length, e.2))

/-- The directories the os.walk loop counts: every directory strictly below
target_dir. -/
def countFoldersUnder (fs : FS) (dir : List String) : Nat :=
  (fs.dirs.filter
      (fun d => startsWith dir d && decide (dir.length < d.length))).length

/-- The body of the per-file loop in analyze_extracted_content (lines 303-317):
analyze the file, then look its path up in the archive and, when found,
overwrite the checksum record with both sides present. -/
def analyzeStep (z : ZipData) (mime : List Nat → String) (info : Info)
    (f : List String × List Nat) : Info :=
  let info1 := analyze_file f.2 f.1 mime info
  match get_zip_checksum z f.1 with
  | some c =>
    { info1 with
      checksums := keySet info1.checksums f.1
        { zip := some c, extracted := some (calculate_file_checksum f.2) } }
  | none => info1

/-- The initial info dict of analyze_extracted_content (lines 288-301), with
the folder count accumulated by the walk already summed. -/
def initInfo (fs : FS) (target_dir zip_path : List String) : Info :=
  { total_files := 0
    total_folders := countFoldersUnder fs target_dir
    file_types := []
    total_size := 0
    largest_file := ([], 0)
    success_indicators := { files_extracted := false, no_errors := true }
    checksums := []
    zip_path := zip_path
    extraction_dir := target_dir
    zip_size := 0 }

/-- analyze_extracted_content (src/unzippy.py lines 287-325): walk the
extracted tree folding analyzeStep, then set files_extracted from the file
count and record the archive's on-disk size. no_errors is initialized true and
never modified. -/
def analyze_extracted_content (fs : FS) (target_dir : List String) (z : ZipData)
    (zip_path : List String) (mime : List Nat → String) : Info :=
  let info := (walkFiles fs target_dir).foldl (analyzeStep z mime)
    (initInfo fs target_dir zip_path)
  let info1 := { info with
    success_indicators :=
      { info.success_indicators with files_extracted := decide (info.total_files > 0) } }
  { info1 with zip_size := getsize fs zip_path }

/-- matching_checksums of create_checksum_panel (line 88): the number of
records whose two sides compare equal under Python ==, where None == None is
true. -/
def matching_checksums (m : List (List String × ChecksumPair)) : Nat :=
  (m.filter (fun r => decide (r.2.zip = r.2.extracted))).length

/-- mismatched_checksums of create_checksum_panel (line 89): total minus
matching. -/
def mismatched_checksums (m : List (List String × ChecksumPair)) : Nat :=
  m.length - matching_checksums m

/-- zip_ref.extract(file, extraction_dir) for a single entry: a directory
entry creates the directory, a file entry writes the bytes below the
extraction directory. -/
def extractEntry (fs : FS) (dir : List String) (e : ZipEntry) : FS :=
  if e.isEntryDir then mkdirP fs (dir ++ e.filename)
  else writeFile fs (dir ++ e.filename) e.data

/-- UnzipCommand.unzip (src/unzippy.py lines 155-173): create the destination
directory (parents, exist_ok) before opening the archive, then extract every
entry in order. BadZipFile on open and any exception mid-extraction are caught
and yield False; ioFailAt gives the entry index at which the I/O exception
strikes, if any. -/
def unzip (fs : FS) (z : ZipData) (ioFailAt : Option Nat)
    (targetDir zipPath : List String) : Bool × FS :=
  let dir := extractionDirOf targetDir zipPath
  let fs1 := mkdirP fs dir
  match z with
  | .invalid => (false, fs1)
  | .valid entries =>
    match ioFailAt with
    | some i =>
      if i < entries.length then
        (false, (entries.take i).foldl (fun a e => extractEntry a dir e) fs1)
      else (true, entries.foldl (fun a e => extractEntry a dir e) fs1)
    | none => (true, entries.foldl (fun a e => extractEntry a dir e) fs1)

/-- What one command.execute run yields for verification purposes: whether the
deletion step was offered (the confirmation prompt in Production, the
simulated-deletion report in Test), the analysis summary if that phase was
reached, the final filesystem, and the extraction directory used. -/
structure ExecResult where
  offered : Bool
  info : Option Info
  fs : FS
  extractionDir : List String
deriving DecidableEq

/-- ProductionUnzipCommand.execute (src/unzippy.py lines 196-219): abort if
unzip failed; otherwise analyze, and when all success indicators hold, offer
the confirmation prompt; the operator's answer is conf (none models a
KeyboardInterrupt, caught as cancellation); stripped lowercase "yes" runs
safe_delete_file on the archive. -/
def productionExecute (fs : FS) (z : ZipData) (ioFailAt : Option Nat)
    (mime : List Nat → String) (targetDir zipPath : List String)
    (conf : Option String) : ExecResult :=
  let r := unzip fs z ioFailAt targetDir zipPath
  let dir := extractionDirOf targetDir zipPath
  if r.1 = false then { offered := false, info := none, fs := r.2, extractionDir := dir }
  else
    let info := analyze_extracted_content r.2 dir z zipPath mime
    if info.success_indicators.files_extracted && info.success_indicators.no_errors then
      match conf with
      | some s =>
        if s.trim.toLower = "yes" then
          { offered := true, info := some info,
            fs := (safe_delete_file r.2 zipPath).2, extractionDir := dir }
        else { offered := true, info := some info, fs := r.2, extractionDir := dir }
      | none => { offered := true, info := some info, fs := r.2, extractionDir := dir }
    else { offered := false, info := some info, fs := r.2, extractionDir := dir }

/-- TestUnzipCommand.execute (src/unzippy.py lines 221-250): announce the
extraction directory (the same target_dir / stem expression), run the same
unzip and analysis, and when all success indicators hold print the simulated
deletion report; no deletion ever happens. -/
def testExecute (fs : FS) (z : ZipData) (ioFailAt : Option Nat)
    (mime : List Nat → String) (targetDir zipPath : List String) : ExecResult :=
  let r := unzip fs z ioFailAt targetDir zipPath
  let dir := extractionDirOf targetDir zipPath
  if r.1 = false then { offered := false, info := none, fs := r.2, extractionDir := dir }
  else
    let info := analyze_extracted_content r.2 dir z zipPath mime
    if info.success_indicators.files_extracted && info.success_indicators.no_errors then
      { offered := true, info := some info, fs := r.2, extractionDir := dir }
    else { offered := false, info := some info, fs := r.2, extractionDir := dir }

/-! Helper lemmas about the dictionary operations. -/

theorem keyFind_cons {α : Type} (e : List String × α)
    (rest : List (List String × α)) (q : List String) :
    keyFind (e :: rest) q = if e.1 = q then some e.2 else keyFind rest q := rfl

theorem keyFind_eq_none_iff {α : Type} [Nonempty α]
    (m : List (List String × α)) (k : List String) :
    keyFind m k = none ↔ k ∉ m.map Prod.fst := by
  induction m with
  | nil => simp [keyFind]
  | cons e rest ih =>
    by_cases h : e.1 = k
    · simp [keyFind_cons, h]
    · simp [keyFind_cons, h, ih, Ne.symm h]

theorem keyMem_iff {α : Type} [Nonempty α]
    (m : List (List String × α)) (k : List String) :
    keyMem m k = true ↔ k ∈ m.map Prod.fst := by
  rw [keyMem, Option.isSome_iff_ne_none, ne_eq, keyFind_eq_none_iff, not_not]

theorem keyFind_append_of_none {α : Type} {m : List (List String × α)}
    {k : List String} (v : α) (h : keyFind m k = none) :
    keyFind (m ++ [(k, v)]) k = some v := by
  induction m with
  | nil => simp [keyFind]
  | cons e rest ih =>
    by_cases he : e.1 = k
    · rw [keyFind_cons, if_pos he] at h
      cases h
    · rw [keyFind_cons, if_neg he] at h
      rw [List.cons_append, keyFind_cons, if_neg he]
      exact ih h

theorem keyFind_append_ne {α : Type} (m : List (List String × α))
    {q k : List String} (v : α) (h : q ≠ k) :
    keyFind (m ++ [(k, v)]) q = keyFind m q := by
  induction m with
  | nil =>
    have hk : ¬ k = q := fun hk => h hk.symm
    simp [keyFind_cons, keyFind, hk]
  | cons e rest ih =>
    by_cases he : e.1 = q
    · rw [List.cons_append, keyFind_cons, if_pos he, keyFind_cons, if_pos he]
    · rw [List.cons_append, keyFind_cons, if_neg he, keyFind_cons, if_neg he]
      exact ih

theorem keyFind_map_ne {α : Type} (m : List (List String × α))
    {q k : List String} (g : α → α) (h : q ≠ k) :
    keyFind (m.map (fun e => if e.1 = k then (e.1, g e.2) else e)) q
      = keyFind m q := by
  induction m with
  | nil => rfl
  | cons e rest ih =>
    rw [List.map_cons, keyFind_cons, keyFind_cons, ih]
    by_cases hek : e.1 = k
    · have heq : ¬ e.1 = q := by rw [hek]; exact fun hq => h hq.symm
      rw [if_pos hek]
      simp [heq]
    · rw [if_neg hek]

theorem keys_map_update {α : Type} (m : List (List String × α))
    (k : List String) (g : α → α) :
    (m.map (fun e => if e.1 = k then (e.1, g e.2) else e)).map Prod.fst
      = m.map Prod.fst := by
  induction m with
  | nil => simp
  | cons e rest ih =>
    by_cases he : e.1 = k <;> simp [he, ih]

theorem keyFind_keySet_ne {α : Type} (m : List (List String × α))
    {q k : List String} (v : α) (h : q ≠ k) :
    keyFind (keySet m k v) q = keyFind m q := by
  unfold keySet
  split
  · exact keyFind_map_ne m (fun _ => v) h
  · exact keyFind_append_ne m v h

theorem keyFind_setExtracted_ne (m : List (List String × ChecksumPair))
    {q k : List String} (cs : Nat) (h : q ≠ k) :
    keyFind (setExtracted m k cs) q = keyFind m q := by
  unfold setExtracted
  split
  · exact keyFind_map_ne m (fun p => withExtracted p cs) h
  · exact keyFind_append_ne m _ h

theorem keys_keySet_of_not_mem {α : Type} [Nonempty α]
    (m : List (List String × α)) {k : List String} (v : α)
    (h : k ∉ m.map Prod.fst) :
    (keySet m k v).map Prod.fst = m.map Prod.fst ++ [k] := by
  have hm : ¬ keyMem m k = true := by
    rw [keyMem_iff]; exact h
  simp [keySet, hm]

theorem keys_keySet_of_mem {α : Type} [Nonempty α]
    (m : List (List String × α)) {k : List String} (v : α)
    (h : k ∈ m.map Prod.fst) :
    (keySet m k v).map Prod.fst = m.map Prod.fst := by
  have hm : keyMem m k = true := (keyMem_iff m k).mpr h
  simp only [keySet, hm, if_true]
  exact keys_map_update m k (fun _ => v)

theorem keys_setExtracted_of_not_mem (m : List (List String × ChecksumPair))
    {k : List String} (cs : Nat) (h : k ∉ m.map Prod.fst) :
    (setExtracted m k cs).map Prod.fst = m.map Prod.fst ++ [k] := by
  have hm : ¬ keyMem m k = true := by
    rw [keyMem_iff]; exact h
  simp [setExtracted, hm]

theorem mem_keySet {α : Type} [Nonempty α] {m : List (List String × α)}
    {k : List String} {v : α} {r : List String × α} (hr : r ∈ keySet m k v) :
    (r ∈ m ∧ r.1 ≠ k) ∨ r.2 = v := by
  unfold keySet at hr
  split at hr
  · rcases List.mem_map.mp hr with ⟨e, he, heq⟩
    by_cases hek : e.1 = k
    · right; rw [← heq]; simp [hek]
    · left
      have hre : r = e := by rw [← heq]; simp [hek]
      rw [hre]
      exact ⟨he, hek⟩
  · next hmem =>
    rcases List.mem_append.mp hr with h | h
    · left
      refine ⟨h, ?_⟩
      intro hk
      exact hmem ((keyMem_iff m k).mpr (List.mem_map.mpr ⟨r, h, hk⟩))
    · right
      have hrv : r = (k, v) := by simpa using h
      rw [hrv]

theorem mem_setExtracted {m : List (List String × ChecksumPair)}
    {k : List String} {cs : Nat} {r : List String × ChecksumPair}
    (hr : r ∈ setExtracted m k cs) : r ∈ m ∨ r.1 = k := by
  unfold setExtracted at hr
  split at hr
  · rcases List.mem_map.mp hr with ⟨e, he, heq⟩
    by_cases hek : e.1 = k
    · right; rw [← heq]; simp [hek]
    · left
      have hre : r = e := by rw [← heq]; simp [hek]
      rw [hre]; exact he
  · rcases List.mem_append.mp hr with h | h
    · left; exact h
    · right
      have hrv : r = (k, { zip := none, extracted := some cs }) := by simpa using h
      rw [hrv]

/-! Bounds for the CRC-32 computation. -/

theorem crc32Round_lt {c : Nat} (h : c < 2 ^ 32) : crc32Round c < 2 ^ 32 := by
  unfold crc32Round
  have hs : c >>> 1 < 2 ^ 32 := by
    rw [Nat.shiftRight_eq_div_pow]
    exact Nat.lt_of_le_of_lt (Nat.div_le_self c (2 ^ 1)) h
  split
  · exact Nat.xor_lt_two_pow hs (by norm_num)
  · exact hs

theorem crc32Rounds_lt {c : Nat} (n : Nat) (h : c < 2 ^ 32) :
    crc32Rounds n c < 2 ^ 32 := by
  induction n generalizing c with
  | zero => exact h
  | succ n ih => exact ih (crc32Round_lt h)

theorem crc32_lt (data : List Nat) : crc32 data < 2 ^ 32 := by
  unfold crc32
  have hfold : ∀ (l : List Nat) (c : Nat), c < 2 ^ 32 →
      l.foldl (fun c b => crc32Rounds 8 (c ^^^ (b % 256))) c < 2 ^ 32 := by
    intro l
    induction l with
    | nil => intro c hc; exact hc
    | cons b rest ih =>
      intro c hc
      refine ih _ (crc32Rounds_lt 8 ?_)
      refine Nat.xor_lt_two_pow hc ?_
      exact Nat.lt_of_lt_of_le (Nat.mod_lt b (by norm_num)) (by norm_num)
  exact Nat.xor_lt_two_pow (hfold data 0xFFFFFFFF (by norm_num)) (by norm_num)

theorem calculate_file_checksum_eq_crc32 (data : List Nat) :
    calculate_file_checksum data = crc32 data := by
  unfold calculate_file_checksum
  have h32 : (0xFFFFFFFF : Nat) = 2 ^ 32 - 1 := by norm_num
  rw [h32]
  exact Nat.and_pow_two_sub_one_of_lt_two_pow (crc32_lt data)

/-! Aggregate behaviour of the analysis fold. -/

theorem analyze_file_success (data : List Nat) (rp : List String)
    (mime : List Nat → String) (info : Info) :
    (analyze_file data rp mime info).success_indicators = info.success_indicators := by
  unfold analyze_file
  dsimp only
  split <;> rfl

theorem analyze_file_total (data : List Nat) (rp : List String)
    (mime : List Nat → String) (info : Info) :
    (analyze_file data rp mime info).total_files = info.total_files + 1 := by
  unfold analyze_file
  dsimp only
  split <;> rfl

theorem analyzeStep_success (z : ZipData) (mime : List Nat → String)
    (info : Info) (f : List String × List Nat) :
    (analyzeStep z mime info f).success_indicators = info.success_indicators := by
  unfold analyzeStep
  dsimp only
  cases get_zip_checksum z f.1 <;> simp [analyze_file_success]

theorem analyzeStep_total (z : ZipData) (mime : List Nat → String)
    (info : Info) (f : List String × List Nat) :
    (analyzeStep z mime info f).total_files = info.total_files + 1 := by
  unfold analyzeStep
  dsimp only
  cases get_zip_checksum z f.1 <;> simp [analyze_file_total]

theorem foldl_analyzeStep_success (z : ZipData) (mime : List Nat → String)
    (l : List (List String × List Nat)) (base : Info) :
    (l.foldl (analyzeStep z mime) base).success_indicators
      = base.success_indicators := by
  induction l generalizing base with
  | nil => rfl
  | cons f rest ih =>
    rw [List.foldl_cons, ih, analyzeStep_success]

theorem foldl_analyzeStep_total (z : ZipData) (mime : List Nat → String)
    (l : List (List String × List Nat)) (base : Info) :
    (l.foldl (analyzeStep z mime) base).total_files
      = base.total_files + l.length := by
  induction l generalizing base with
  | nil => rfl
  | cons f rest ih =>
    rw [List.foldl_cons, ih, analyzeStep_total, List.length_cons]
    omega

theorem analyze_success_eq (fs : FS) (dir : List String) (z : ZipData)
    (zp : List String) (mime : List Nat → String) :
    (analyze_extracted_content fs dir z zp mime).success_indicators
      = { files_extracted := decide (0 < (walkFiles fs dir).length),
          no_errors := true } := by
  unfold analyze_extracted_content
  dsimp only
  rw [foldl_analyzeStep_success, foldl_analyzeStep_total]
  simp [initInfo]

theorem analyze_total_eq (fs : FS) (dir : List String) (z : ZipData)
    (zp : List String) (mime : List Nat → String) :
    (analyze_extracted_content fs dir z zp mime).total_files
      = (walkFiles fs dir).length := by
  unfold analyze_extracted_content
  dsimp only
  rw [foldl_analyzeStep_total]
  simp [initInfo]

theorem analyze_no_errors (fs : FS) (dir : List String) (z : ZipData)
    (zp : List String) (mime : List Nat → String) :
    (analyze_extracted_content fs dir z zp mime).success_indicators.no_errors
      = true := by
  rw [analyze_success_eq]

theorem analyze_fe_eq (fs : FS) (dir : List String) (z : ZipData)
    (zp : List String) (mime : List Nat → String) :
    (analyze_extracted_content fs dir z zp mime).success_indicators.files_extracted
      = decide (0 < (analyze_extracted_content fs dir z zp mime).total_files) := by
  rw [analyze_success_eq, analyze_total_eq]

/-! Characterization of the two execute pipelines. -/

theorem productionExecute_info (fs : FS) (z : ZipData) (io : Option Nat)
    (mime : List Nat → String) (td zp : List String) (conf : Option String) :
    (productionExecute fs z io mime td zp conf).info
      = if (unzip fs z io td zp).1 = false then none
        else some (analyze_extracted_content (unzip fs z io td zp).2
          (extractionDirOf td zp) z zp mime) := by
  unfold productionExecute
  dsimp only
  split
  · rfl
  · split
    · cases conf with
      | none => rfl
      | some s =>
        dsimp only
        split <;> rfl
    · rfl

theorem productionExecute_offered (fs : FS) (z : ZipData) (io : Option Nat)
    (mime : List Nat → String) (td zp : List String) (conf : Option String) :
    (productionExecute fs z io mime td zp conf).offered
      = if (unzip fs z io td zp).1 = false then false
        else
          (analyze_extracted_content (unzip fs z io td zp).2
              (extractionDirOf td zp) z zp mime).success_indicators.files_extracted
            && (analyze_extracted_content (unzip fs z io td zp).2
              (extractionDirOf td zp) z zp mime).success_indicators.no_errors := by
  unfold productionExecute
  dsimp only
  split
  · rfl
  · next hu =>
    split
    · next hg =>
      cases conf with
      | none => simp [hg]
      | some s =>
        dsimp only
        split <;> simp [hg]
    · next hg =>
      simp only [Bool.not_eq_true] at hg
      exact hg.symm

theorem testExecute_info (fs : FS) (z : ZipData) (io : Option Nat)
    (mime : List Nat → String) (td zp : List String) :
    (testExecute fs z io mime td zp).info
      = if (unzip fs z io td zp).1 = false then none
        else some (analyze_extracted_content (unzip fs z io td zp).2
          (extractionDirOf td zp) z zp mime) := by
  unfold testExecute
  dsimp only
  split
  · rfl
  · split <;> rfl

theorem testExecute_offered (fs : FS) (z : ZipData) (io : Option Nat)
    (mime : List Nat → String) (td zp : List String) :
    (testExecute fs z io mime td zp).offered
      = if (unzip fs z io td zp).1 = false then false
        else
          (analyze_extracted_content (unzip fs z io td zp).2
              (extractionDirOf td zp) z zp mime).success_indicators.files_extracted
            && (analyze_extracted_content (unzip fs z io td zp).2
              (extractionDirOf td zp) z zp mime).success_indicators.no_errors := by
  unfold testExecute
  dsimp only
  split
  · rfl
  · split
    · next hg => simp [hg]
    · next hg =>
      simp only [Bool.not_eq_true] at hg
      exact hg.symm

theorem testExecute_fs (fs : FS) (z : ZipData) (io : Option Nat)
    (mime : List Nat → String) (td zp : List String) :
    (testExecute fs z io mime td zp).fs = (unzip fs z io td zp).2 := by
  unfold testExecute
  dsimp only
  split
  · rfl
  · split <;> rfl

theorem productionExecute_dir (fs : FS) (z : ZipData) (io : Option Nat)
    (mime : List Nat → String) (td zp : List String) (conf : Option String) :
    (productionExecute fs z io mime td zp conf).extractionDir
      = extractionDirOf td zp := by
  unfold productionExecute
  dsimp only
  split
  · rfl
  · split
    · cases conf with
      | none => rfl
      | some s =>
        dsimp only
        split <;> rfl
    · rfl

theorem testExecute_dir (fs : FS) (z : ZipData) (io : Option Nat)
    (mime : List Nat → String) (td zp : List String) :
    (testExecute fs z io mime td zp).extractionDir = extractionDirOf td zp := by
  unfold testExecute
  dsimp only
  split
  · rfl
  · split <;> rfl

/-! Concrete data shared by several witnesses. -/

/-- A fixed MIME sniffer standing in for magic.from_file. -/
def mimeW : List Nat → String := fun _ => "application/octet-stream"

/-- A filesystem holding one archive file t/a.zip and the directory t. -/
def fsW1 : FS :=
  { files := [(["t", "a.zip"], [80, 75])]
    dirs := [["t"]]
    resolveLinks := []
    failRemove := [] }

/-- C1: the destructive deletion step (the confirmation prompt in Production
mode, the simulated-deletion report in Test mode) is offered if and only if
both success indicators hold, and for an archive whose extraction yields zero
files the deletion step never appears in either mode (nor when the analysis
phase is not even reached). -/
theorem c1_deletion_gate (fs : FS) (z : ZipData) (io : Option Nat)
    (mime : List Nat → String) (td zp : List String) (conf : Option String) :
    (∀ i, (productionExecute fs z io mime td zp conf).info = some i →
        (productionExecute fs z io mime td zp conf).offered
          = (i.success_indicators.files_extracted && i.success_indicators.no_errors))
  ∧ (∀ i, (testExecute fs z io mime td zp).info = some i →
        (testExecute fs z io mime td zp).offered
          = (i.success_indicators.files_extracted && i.success_indicators.no_errors))
  ∧ (∀ i, (productionExecute fs z io mime td zp conf).info = some i →
        i.total_files = 0 → (productionExecute fs z io mime td zp conf).offered = false)
  ∧ (∀ i, (testExecute fs z io mime td zp).info = some i →
        i.total_files = 0 → (testExecute fs z io mime td zp).offered = false)
  ∧ ((productionExecute fs z io mime td zp conf).info = none →
        (productionExecute fs z io mime td zp conf).offered = false)
  ∧ ((testExecute fs z io mime td zp).info = none →
        (testExecute fs z io mime td zp).offered = false) := by
  have hp1 : ∀ i, (productionExecute fs z io mime td zp conf).info = some i →
      (productionExecute fs z io mime td zp conf).offered
        = (i.success_indicators.files_extracted && i.success_indicators.no_errors) := by
    intro i h
    rw [productionExecute_info] at h
    rw [productionExecute_offered]
    by_cases hu : (unzip fs z io td zp).1 = false
    · rw [if_pos hu] at h; cases h
    · rw [if_neg hu] at h
      rw [if_neg hu]
      injection h with h2
      rw [h2]
  have ht1 : ∀ i, (testExecute fs z io mime td zp).info = some i →
      (testExecute fs z io mime td zp).offered
        = (i.success_indicators.files_extracted && i.success_indicators.no_errors) := by
    intro i h
    rw [testExecute_info] at h
    rw [testExecute_offered]
    by_cases hu : (unzip fs z io td zp).1 = false
    · rw [if_pos hu] at h; cases h
    · rw [if_neg hu] at h
      rw [if_neg hu]
      injection h with h2
      rw [h2]
  have hzero : ∀ i, (productionExecute fs z io mime td zp conf).info = some i →
      i.total_files = 0 → (productionExecute fs z io mime td zp conf).offered = false := by
    intro i h h0
    rw [hp1 i h]
    rw [productionExecute_info] at h
    by_cases hu : (unzip fs z io td zp).1 = false
    · rw [if_pos hu] at h; cases h
    · rw [if_neg hu] at h
      injection h with h2
      have hfe2 : i.success_indicators.files_extracted = decide (0 < i.total_files) := by
        rw [← h2]
        exact analyze_fe_eq _ _ _ _ _
      rw [hfe2, h0]
      simp
  have htzero : ∀ i, (testExecute fs z io mime td zp).info = some i →
      i.total_files = 0 → (testExecute fs z io mime td zp).offered = false := by
    intro i h h0
    rw [ht1 i h]
    rw [testExecute_info] at h
    by_cases hu : (unzip fs z io td zp).1 = false
    · rw [if_pos hu] at h; cases h
    · rw [if_neg hu] at h
      injection h with h2
      have hfe2 : i.success_indicators.files_extracted = decide (0 < i.total_files) := by
        rw [← h2]
        exact analyze_fe_eq _ _ _ _ _
      rw [hfe2, h0]
      simp
  have hpn : (productionExecute fs z io mime td zp conf).info = none →
      (productionExecute fs z io mime td zp conf).offered = false := by
    intro h
    rw [productionExecute_info] at h
    rw [productionExecute_offered]
    by_cases hu : (unzip fs z io td zp).1 = false
    · rw [if_pos hu]
    · rw [if_neg hu] at h; cases h
  have htn : (testExecute fs z io mime td zp).info = none →
      (testExecute fs z io mime td zp).offered = false := by
    intro h
    rw [testExecute_info] at h
    rw [testExecute_offered]
    by_cases hu : (unzip fs z io td zp).1 = false
    · rw [if_pos hu]
    · rw [if_neg hu] at h; cases h
  exact ⟨hp1, ht1, hzero, htzero, hpn, htn⟩

/-- Witness for C1: on a valid archive with zero entries, extraction succeeds,
the analysis reports zero files, and the Production deletion prompt is not
offered. -/
theorem c1_deletion_gate_witness :
    (productionExecute fsW1 (ZipData.valid []) none mimeW ["t"] ["t", "a.zip"]
      (some "yes")).offered = false :=
  (c1_deletion_gate fsW1 (ZipData.valid []) none mimeW ["t"] ["t", "a.zip"]
      (some "yes")).2.2.1
    (analyze_extracted_content
      (unzip fsW1 (ZipData.valid []) none ["t"] ["t", "a.zip"]).2
      (extractionDirOf ["t"] ["t", "a.zip"]) (ZipData.valid []) ["t", "a.zip"] mimeW)
    (by rfl) (by rfl)

/-- C8: the success indicators depend only on the walked extracted files: two
analysis runs that agree on the extracted file walk produce equal indicator
pairs regardless of the archive path, archive data (hence archive byte size)
and MIME sniffer; compression ratio is display-only. -/
theorem c8_size_independent (fs1 fs2 : FS) (dir : List String) (z1 z2 : ZipData)
    (zp1 zp2 : List String) (m1 m2 : List Nat → String)
    (h : walkFiles fs1 dir = walkFiles fs2 dir) :
    (analyze_extracted_content fs1 dir z1 zp1 m1).success_indicators
      = (analyze_extracted_content fs2 dir z2 zp2 m2).success_indicators := by
  rw [analyze_success_eq, analyze_success_eq, h]

/-- A filesystem with a 1-byte archive and one extracted file. -/
def fsW2 : FS :=
  { files := [(["t", "a.zip"], [1]), (["t", "a", "f"], [7, 8])]
    dirs := [["t"], ["t", "a"]]
    resolveLinks := []
    failRemove := [] }

/-- The same filesystem with a 4-byte archive instead. -/
def fsW3 : FS :=
  { files := [(["t", "a.zip"], [1, 2, 3, 4]), (["t", "a", "f"], [7, 8])]
    dirs := [["t"], ["t", "a"]]
    resolveLinks := []
    failRemove := [] }

/-- Witness for C8: two runs whose archives differ in byte size (1 versus 4)
but agree on the extracted files produce equal success indicators. -/
theorem c8_size_independent_witness :
    getsize fsW2 ["t", "a.zip"] ≠ getsize fsW3 ["t", "a.zip"]
  ∧ (analyze_extracted_content fsW2 ["t", "a"] ZipData.invalid ["t", "a.zip"] mimeW).success_indicators
      = (analyze_extracted_content fsW3 ["t", "a"] ZipData.invalid ["t", "a.zip"] mimeW).success_indicators :=
  ⟨by decide,
   c8_size_independent fsW2 fsW3 ["t", "a"] ZipData.invalid ZipData.invalid
     ["t", "a.zip"] ["t", "a.zip"] mimeW mimeW (by rfl)⟩

/-- C5 (code evidence): the extraction destination directory is the same
expression target_dir / zip stem in both modes, so Test mode extracts to
exactly the Production directory; in particular for archive t/a.zip with
target t both modes use t/a. -/
theorem c5_same_extraction_dir :
    (∀ (fs : FS) (z : ZipData) (io : Option Nat) (mime : List Nat → String)
        (td zp : List String) (conf : Option String),
        (testExecute fs z io mime td zp).extractionDir
          = (productionExecute fs z io mime td zp conf).extractionDir)
  ∧ (testExecute fsW1 (ZipData.valid []) none mimeW ["t"] ["t", "a.zip"]).extractionDir
      = ["t", "a"] := by
  constructor
  · intro fs z io mime td zp conf
    rw [testExecute_dir, productionExecute_dir]
  · rfl

/-- C9: calculate_file_checksum always returns a value strictly below 2^32,
so it is comparable with the 32-bit CRC stored in archive metadata. -/
theorem c9_checksum_lt (data : List Nat) :
    calculate_file_checksum data < 2 ^ 32 := by
  rw [calculate_file_checksum_eq_crc32]
  exact crc32_lt data

theorem isFile_removeFile_self (fs : FS) (p : List String) :
    isFile (removeFile fs p) p = false := by
  unfold isFile removeFile
  dsimp only
  suffices h : ∀ m : List (List String × List Nat),
      (keyFind (m.filter (fun e => !(decide (e.1 = p)))) p).isSome = false by
    exact h fs.files
  intro m
  induction m with
  | nil => rfl
  | cons e rest ih =>
    by_cases he : e.1 = p
    · simpa [List.filter, he] using ih
    · simpa [List.filter, he, keyFind_cons] using ih

/-- C7: the deletion routine re-verifies that the resolved target is a regular
file: it returns true exactly when the resolved target is a regular file and
the removal syscall does not fail, a true return means the file is gone, and
on a failed check or failed removal the filesystem is untouched. Totality of
the definition reflects that the Python function catches every exception. -/
theorem c7_safe_delete (fs : FS) (p : List String) :
    ((safe_delete_file fs p).1 = true ↔
        (isFile fs (resolvePath fs p) = true ∧ resolvePath fs p ∉ fs.failRemove))
  ∧ ((safe_delete_file fs p).1 = true →
        isFile (safe_delete_file fs p).2 (resolvePath fs p) = false)
  ∧ (isFile fs (resolvePath fs p) = false → (safe_delete_file fs p).2 = fs)
  ∧ ((safe_delete_file fs p).1 = false → (safe_delete_file fs p).2 = fs) := by
  unfold safe_delete_file osRemove
  dsimp only
  by_cases hf : isFile fs (resolvePath fs p)
  · by_cases hr : resolvePath fs p ∈ fs.failRemove
    · simp [hf, hr]
    · simp [hf, hr, isFile_removeFile_self]
  · simp only [Bool.not_eq_true] at hf
    simp [hf]

/-- Witness for C7: deleting the existing regular file t/a.zip succeeds and
the file is gone afterwards; the hypotheses of the characterization are
discharged at this concrete filesystem. -/
theorem c7_safe_delete_witness :
    (safe_delete_file fsW1 ["t", "a.zip"]).1 = true
  ∧ isFile (safe_delete_file fsW1 ["t", "a.zip"]).2
      (resolvePath fsW1 ["t", "a.zip"]) = false :=
  ⟨(c7_safe_delete fsW1 ["t", "a.zip"]).1.mpr ⟨by decide, by decide⟩,
   (c7_safe_delete fsW1 ["t", "a.zip"]).2.1 (by decide)⟩

/-! Directory-creation lemmas for mkdir(parents=True, exist_ok=True). -/

theorem mem_foldl_insertDir_init (l : List (List String)) (ds : List (List String))
    (a : List String) (h : a ∈ ds) : a ∈ l.foldl insertDir ds := by
  induction l generalizing ds with
  | nil => exact h
  | cons q rest ih =>
    apply ih
    unfold insertDir
    split
    · exact h
    · exact List.mem_append_left _ h

theorem mem_foldl_insertDir_self (l : List (List String)) (ds : List (List String))
    (a : List String) (h : a ∈ l) : a ∈ l.foldl insertDir ds := by
  induction l generalizing ds with
  | nil => cases h
  | cons q rest ih =>
    rcases List.mem_cons.mp h with rfl | h2
    · rw [List.foldl_cons]
      apply mem_foldl_insertDir_init
      unfold insertDir
      split
      · next hq => exact hq
      · exact List.mem_append_right _ (by simp)
    · exact ih _ h2

theorem self_mem_prefixesOf (d : List String) (h : d ≠ []) : d ∈ prefixesOf d := by
  unfold prefixesOf
  apply List.mem_map.mpr
  have hpos : 0 < d.length := List.length_pos.mpr h
  refine ⟨d.length - 1, List.mem_range.mpr (by omega), ?_⟩
  have heq : d.length - 1 + 1 = d.length := by omega
  rw [heq, List.take_length]

theorem isDir_mkdirP_self (fs : FS) (d : List String) (h : d ≠ []) :
    isDir (mkdirP fs d) d = true := by
  unfold isDir mkdirP
  dsimp only
  rw [decide_eq_true_eq]
  exact mem_foldl_insertDir_self _ _ _ (self_mem_prefixesOf d h)

/-- C10: the extraction destination target_dir / stem is created (with parents,
tolerating pre-existing directories) before the archive is opened, so on a
BadZipFile archive unzip returns false with the filesystem only extended by
that directory: the directory exists, no file was written, and if nothing was
under it before it is empty afterwards. -/
theorem c10_dir_created (fs : FS) (td zp : List String) :
    (unzip fs ZipData.invalid none td zp).1 = false
  ∧ (unzip fs ZipData.invalid none td zp).2 = mkdirP fs (extractionDirOf td zp)
  ∧ isDir (unzip fs ZipData.invalid none td zp).2 (extractionDirOf td zp) = true
  ∧ (unzip fs ZipData.invalid none td zp).2.files = fs.files
  ∧ (walkFiles fs (extractionDirOf td zp) = [] →
      walkFiles (unzip fs ZipData.invalid none td zp).2 (extractionDirOf td zp) = []) := by
  refine ⟨rfl, rfl, ?_, rfl, ?_⟩
  · exact isDir_mkdirP_self fs (extractionDirOf td zp) (by simp [extractionDirOf])
  · intro h
    exact h

/-- Witness for C10: on filesystem fsW2 (which has no files under t/b) an
invalid archive t/b.zip still gets its destination directory t/b created, and
that directory is empty. -/
theorem c10_dir_created_witness :
    isDir (unzip fsW2 ZipData.invalid none ["t"] ["t", "b.zip"]).2 ["t", "b"] = true
  ∧ walkFiles (unzip fsW2 ZipData.invalid none ["t"] ["t", "b.zip"]).2 ["t", "b"] = [] :=
  ⟨(c10_dir_created fsW2 ["t"] ["t", "b.zip"]).2.2.1,
   (c10_dir_created fsW2 ["t"] ["t", "b.zip"]).2.2.2.2 (by rfl)⟩

/-! Frame lemmas: extraction only writes below the extraction directory. -/

theorem keyFind_extractEntry (fs : FS) (dir : List String) (e : ZipEntry)
    (q : List String) (h : dir ++ e.filename ≠ q) :
    keyFind (extractEntry fs dir e).files q = keyFind fs.files q := by
  unfold extractEntry
  split
  · rfl
  · unfold writeFile
    dsimp only
    exact keyFind_keySet_ne fs.files e.data (fun hq => h hq.symm)

theorem keyFind_foldl_extract (l : List ZipEntry) (g : FS) (dir q : List String)
    (h : ∀ e ∈ l, dir ++ e.filename ≠ q) :
    keyFind ((l.foldl (fun a e => extractEntry a dir e) g)).files q
      = keyFind g.files q := by
  induction l generalizing g with
  | nil => rfl
  | cons e rest ih =>
    rw [List.foldl_cons]
    rw [ih _ (fun e2 he2 => h e2 (List.mem_cons_of_mem _ he2))]
    exact keyFind_extractEntry g dir e q (h e (List.mem_cons_self _ _))

theorem unzip_keyFind (fs : FS) (z : ZipData) (io : Option Nat)
    (td zp q : List String) (h : ∀ r : List String, extractionDirOf td zp ++ r ≠ q) :
    keyFind (unzip fs z io td zp).2.files q = keyFind fs.files q := by
  cases z with
  | invalid => rfl
  | valid entries =>
    cases io with
    | none =>
      exact keyFind_foldl_extract entries (mkdirP fs (extractionDirOf td zp))
        (extractionDirOf td zp) q (fun e _ => h e.filename)
    | some i =>
      by_cases hi : i < entries.length
      · have hu : unzip fs (ZipData.valid entries) (some i) td zp
            = (false,
                (entries.take i).foldl
                  (fun a e => extractEntry a (extractionDirOf td zp) e)
                  (mkdirP fs (extractionDirOf td zp))) := by
          unfold unzip
          dsimp only
          rw [if_pos hi]
        rw [hu]
        exact keyFind_foldl_extract (entries.take i) (mkdirP fs (extractionDirOf td zp))
          (extractionDirOf td zp) q (fun e _ => h e.filename)
      · have hu : unzip fs (ZipData.valid entries) (some i) td zp
            = (true,
                entries.foldl
                  (fun a e => extractEntry a (extractionDirOf td zp) e)
                  (mkdirP fs (extractionDirOf td zp))) := by
          unfold unzip
          dsimp only
          rw [if_neg hi]
        rw [hu]
        exact keyFind_foldl_extract entries (mkdirP fs (extractionDirOf td zp))
          (extractionDirOf td zp) q (fun e _ => h e.filename)

/-- C2: Test mode never deletes nor modifies the original archive: the final
filesystem is exactly what extraction produced, and since extraction writes
only under the extraction directory, the archive file's content is unchanged
whenever the archive does not lie inside its own extraction directory. -/
theorem c2_test_preserves_archive (fs : FS) (z : ZipData) (io : Option Nat)
    (mime : List Nat → String) (td zp : List String)
    (h : ∀ r : List String, extractionDirOf td zp ++ r ≠ zp) :
    keyFind (testExecute fs z io mime td zp).fs.files zp = keyFind fs.files zp
  ∧ (testExecute fs z io mime td zp).fs = (unzip fs z io td zp).2 := by
  refine ⟨?_, testExecute_fs fs z io mime td zp⟩
  rw [testExecute_fs]
  exact unzip_keyFind fs z io td zp zp h

/-- A two-entry archive for the C2 witness. -/
def zW2 : ZipData :=
  ZipData.valid
    [ { filename := ["x.txt"], crc := crc32 [1, 2], data := [1, 2], isEntryDir := false },
      { filename := ["d", "y.txt"], crc := crc32 [3], data := [3], isEntryDir := false } ]

/-- Witness for C2: a Test-mode run over a valid two-entry archive leaves the
archive file t/a.zip with its original content. -/
theorem c2_test_preserves_archive_witness :
    keyFind (testExecute fsW1 zW2 none mimeW ["t"] ["t", "a.zip"]).fs.files
      ["t", "a.zip"] = some [80, 75] := by
  rw [(c2_test_preserves_archive fsW1 zW2 none mimeW ["t"] ["t", "a.zip"]
    (by intro r hr; simp [extractionDirOf, pathStem, lastDotIdx] at hr)).1]
  rfl

theorem productionExecute_fs_of_fail (fs : FS) (z : ZipData) (io : Option Nat)
    (mime : List Nat → String) (td zp : List String) (conf : Option String)
    (h : (unzip fs z io td zp).1 = false) :
    (productionExecute fs z io mime td zp conf).fs = (unzip fs z io td zp).2 := by
  unfold productionExecute
  dsimp only
  rw [if_pos h]

/-- A filesystem holding the archive t/b.zip for the C3 input. -/
def fsW4 : FS :=
  { files := [(["t", "b.zip"], [80, 75, 3, 4])]
    dirs := [["t"]]
    resolveLinks := []
    failRemove := [] }

/-- The two-entry archive whose second entry hits the I/O error for C3. -/
def entriesW4 : List ZipEntry :=
  [ { filename := ["f1"], crc := crc32 [3], data := [3], isEntryDir := false },
    { filename := ["f2"], crc := crc32 [5], data := [5], isEntryDir := false } ]

/-- Counterexample for C3: with an I/O error while extracting the second
entry, ProductionUnzipCommand.execute returns before the analysis phase, so no
summary exists at all (the claim says the pipeline still continues to analysis
with partial results and a no_errors = false summary). -/
theorem c3_counterexample :
    (productionExecute fsW4 (ZipData.valid entriesW4) (some 1) mimeW ["t"]
      ["t", "b.zip"] (some "no")).info = none := by
  rfl

/-- C3 (amended): on an I/O error partway through extraction, unzip catches the
exception and returns False, execute returns immediately without running the
analysis phase (no summary, no deletion step), the partially extracted files
remain on disk, and no_errors is never set to false anywhere: whenever the
analysis does run it reports no_errors = true. -/
theorem c3_amended (fs : FS) (entries : List ZipEntry) (i : Nat)
    (mime : List Nat → String) (td zp : List String) (conf : Option String)
    (h : i < entries.length) :
    (productionExecute fs (ZipData.valid entries) (some i) mime td zp conf).info = none
  ∧ (productionExecute fs (ZipData.valid entries) (some i) mime td zp conf).offered = false
  ∧ (productionExecute fs (ZipData.valid entries) (some i) mime td zp conf).fs
      = (entries.take i).foldl
          (fun a e => extractEntry a (extractionDirOf td zp) e)
          (mkdirP fs (extractionDirOf td zp))
  ∧ (∀ (fs2 : FS) (d2 : List String) (z2 : ZipData) (zp2 : List String)
        (m2 : List Nat → String),
        (analyze_extracted_content fs2 d2 z2 zp2 m2).success_indicators.no_errors
          = true) := by
  have hu : unzip fs (ZipData.valid entries) (some i) td zp
      = (false,
          (entries.take i).foldl
            (fun a e => extractEntry a (extractionDirOf td zp) e)
            (mkdirP fs (extractionDirOf td zp))) := by
    unfold unzip
    dsimp only
    rw [if_pos h]
  refine ⟨?_, ?_, ?_, fun fs2 d2 z2 zp2 m2 => analyze_no_errors fs2 d2 z2 zp2 m2⟩
  · rw [productionExecute_info, hu]
    rfl
  · rw [productionExecute_offered, hu]
    rfl
  · rw [productionExecute_fs_of_fail fs _ _ mime td zp conf (by rw [hu]), hu]

/-- Witness for C3 (amended): the concrete failing run (second entry errors)
reaches no analysis and offers no deletion. -/
theorem c3_amended_witness :
    (productionExecute fsW4 (ZipData.valid entriesW4) (some 1) mimeW ["t"]
      ["t", "b.zip"] (some "yes")).offered = false :=
  (c3_amended fsW4 entriesW4 1 mimeW ["t"] ["t", "b.zip"] (some "yes")
    (by decide)).2.1

/-! Shape of the checksum dictionary through one analysis step. -/

theorem keySet_of_not_mem {α : Type} [Nonempty α] (m : List (List String × α))
    {k : List String} (v : α) (h : k ∉ m.map Prod.fst) :
    keySet m k v = m ++ [(k, v)] := by
  have hm : ¬ keyMem m k = true := by
    rw [keyMem_iff]; exact h
  simp [keySet, hm]

theorem keyFind_keySet_self {α : Type} [Nonempty α]
    (m : List (List String × α)) (k : List String) (v : α) :
    keyFind (keySet m k v) k = some v := by
  unfold keySet
  by_cases hm : keyMem m k = true
  · rw [if_pos hm]
    have key : ∀ m2 : List (List String × α), k ∈ m2.map Prod.fst →
        keyFind (m2.map (fun e => if e.1 = k then (e.1, v) else e)) k = some v := by
      intro m2
      induction m2 with
      | nil => intro hm2; simp at hm2
      | cons e rest ih =>
        intro hm2
        by_cases he : e.1 = k
        · simp [keyFind_cons, he]
        · rw [List.map_cons, if_neg he, keyFind_cons, if_neg he]
          rw [List.map_cons, List.mem_cons] at hm2
          rcases hm2 with hm2 | hm2
          · exact absurd hm2.symm he
          · exact ih hm2
    exact key m ((keyMem_iff m k).mp hm)
  · rw [if_neg hm]
    refine keyFind_append_of_none v ?_
    rw [keyMem, Option.isSome_iff_ne_none] at hm
    simpa using hm

theorem analyze_file_checksums (data : List Nat) (rp : List String)
    (mime : List Nat → String) (info : Info) :
    (analyze_file data rp mime info).checksums
      = setExtracted info.checksums rp (calculate_file_checksum data) := by
  unfold analyze_file
  dsimp only
  split <;> rfl

theorem analyzeStep_checksums_of_zipnone (z : ZipData) (mime : List Nat → String)
    (info : Info) (f : List String × List Nat)
    (hz : get_zip_checksum z f.1 = none) :
    (analyzeStep z mime info f).checksums
      = setExtracted info.checksums f.1 (calculate_file_checksum f.2) := by
  unfold analyzeStep
  dsimp only
  rw [hz]
  exact analyze_file_checksums f.2 f.1 mime info

theorem analyzeStep_checksums_of_zipsome (z : ZipData) (mime : List Nat → String)
    (info : Info) (f : List String × List Nat) (c : Nat)
    (hz : get_zip_checksum z f.1 = some c) :
    (analyzeStep z mime info f).checksums
      = keySet (setExtracted info.checksums f.1 (calculate_file_checksum f.2)) f.1
          { zip := some c, extracted := some (calculate_file_checksum f.2) } := by
  unfold analyzeStep
  dsimp only
  rw [hz]
  dsimp only
  rw [analyze_file_checksums]

theorem analyzeStep_keys_of_not_mem (z : ZipData) (mime : List Nat → String)
    (info : Info) (f : List String × List Nat)
    (h : f.1 ∉ info.checksums.map Prod.fst) :
    (analyzeStep z mime info f).checksums.map Prod.fst
      = info.checksums.map Prod.fst ++ [f.1] := by
  cases hz : get_zip_checksum z f.1 with
  | none =>
    rw [analyzeStep_checksums_of_zipnone z mime info f hz]
    exact keys_setExtracted_of_not_mem info.checksums _ h
  | some c =>
    rw [analyzeStep_checksums_of_zipsome z mime info f c hz]
    rw [keys_keySet_of_mem _ _
      (by rw [keys_setExtracted_of_not_mem info.checksums _ h]; simp)]
    exact keys_setExtracted_of_not_mem info.checksums _ h

theorem analyzeStep_keyFind_ne (z : ZipData) (mime : List Nat → String)
    (info : Info) (f : List String × List Nat) (q : List String)
    (h : q ≠ f.1) :
    keyFind (analyzeStep z mime info f).checksums q
      = keyFind info.checksums q := by
  cases hz : get_zip_checksum z f.1 with
  | none =>
    rw [analyzeStep_checksums_of_zipnone z mime info f hz]
    exact keyFind_setExtracted_ne info.checksums _ h
  | some c =>
    rw [analyzeStep_checksums_of_zipsome z mime info f c hz]
    rw [keyFind_keySet_ne _ _ h]
    exact keyFind_setExtracted_ne info.checksums _ h

theorem analyzeStep_keyFind_self_of_zipnone (z : ZipData) (mime : List Nat → String)
    (info : Info) (f : List String × List Nat)
    (hz : get_zip_checksum z f.1 = none)
    (hnone : keyFind info.checksums f.1 = none) :
    keyFind (analyzeStep z mime info f).checksums f.1
      = some { zip := none, extracted := some (calculate_file_checksum f.2) } := by
  rw [analyzeStep_checksums_of_zipnone z mime info f hz]
  unfold setExtracted
  have hm : ¬ keyMem info.checksums f.1 = true := by
    rw [keyMem, Option.isSome_iff_ne_none]
    simpa using hnone
  rw [if_neg hm]
  exact keyFind_append_of_none _ hnone

theorem analyzeStep_keyFind_self_of_zipsome (z : ZipData) (mime : List Nat → String)
    (info : Info) (f : List String × List Nat) (c : Nat)
    (hz : get_zip_checksum z f.1 = some c) :
    keyFind (analyzeStep z mime info f).checksums f.1
      = some { zip := some c, extracted := some (calculate_file_checksum f.2) } := by
  rw [analyzeStep_checksums_of_zipsome z mime info f c hz]
  exact keyFind_keySet_self _ _ _

theorem fold_keyFind_ne (z : ZipData) (mime : List Nat → String) (q : List String) :
    ∀ (l : List (List String × List Nat)) (base : Info),
      (∀ f ∈ l, f.1 ≠ q) →
      keyFind ((l.foldl (analyzeStep z mime) base).checksums) q
        = keyFind base.checksums q := by
  intro l
  induction l with
  | nil => intro base _; rfl
  | cons f rest ih =>
    intro base h
    rw [List.foldl_cons]
    rw [ih _ (fun f2 h2 => h f2 (List.mem_cons_of_mem _ h2))]
    exact analyzeStep_keyFind_ne z mime base f q
      (fun hq => h f (List.mem_cons_self _ _) hq.symm)

theorem fold_keys (z : ZipData) (mime : List Nat → String) :
    ∀ (l : List (List String × List Nat)) (base : Info),
      (∀ f ∈ l, f.1 ∉ base.checksums.map Prod.fst) →
      (l.map Prod.fst).Nodup →
      ((l.foldl (analyzeStep z mime) base).checksums).map Prod.fst
        = base.checksums.map Prod.fst ++ l.map Prod.fst := by
  intro l
  induction l with
  | nil => intro base _ _; simp
  | cons f rest ih =>
    intro base hdisj hnod
    rw [List.foldl_cons]
    rw [List.map_cons] at hnod
    have hkeys := analyzeStep_keys_of_not_mem z mime base f
      (hdisj f (List.mem_cons_self _ _))
    rw [ih (analyzeStep z mime base f) ?hd (List.Nodup.of_cons hnod)]
    · rw [hkeys]
      simp
    case hd =>
      intro f2 h2
      rw [hkeys]
      rw [List.mem_append]
      rintro (hin | hin)
      · exact hdisj f2 (List.mem_cons_of_mem _ h2) hin
      · have hf2 : f2.1 ∈ rest.map Prod.fst := List.mem_map.mpr ⟨f2, h2, rfl⟩
        have : f.1 ∉ rest.map Prod.fst := (List.nodup_cons.mp hnod).1
        simp only [List.mem_singleton] at hin
        rw [hin] at hf2
        exact this hf2

theorem fold_keyFind_diskonly (z : ZipData) (mime : List Nat → String)
    (f0 : List String × List Nat) (hz : get_zip_checksum z f0.1 = none) :
    ∀ (l : List (List String × List Nat)) (base : Info),
      f0 ∈ l → (l.map Prod.fst).Nodup → keyFind base.checksums f0.1 = none →
      keyFind ((l.foldl (analyzeStep z mime) base).checksums) f0.1
        = some { zip := none, extracted := some (calculate_file_checksum f0.2) } := by
  intro l
  induction l with
  | nil => intro base h _ _; cases h
  | cons f rest ih =>
    intro base hmem hnod hbase
    rw [List.foldl_cons]
    rw [List.map_cons] at hnod
    rcases List.mem_cons.mp hmem with heq | hmem2
    · subst heq
      rw [fold_keyFind_ne z mime f0.1 rest _ ?hne]
      · exact analyzeStep_keyFind_self_of_zipnone z mime base f0 hz hbase
      case hne =>
        intro f2 h2 hq
        have hf2 : f2.1 ∈ rest.map Prod.fst := List.mem_map.mpr ⟨f2, h2, rfl⟩
        rw [hq] at hf2
        exact (List.nodup_cons.mp hnod).1 hf2
    · refine ih (analyzeStep z mime base f) hmem2 (List.Nodup.of_cons hnod) ?_
      rw [analyzeStep_keyFind_ne z mime base f f0.1 ?hne0]
      · exact hbase
      case hne0 =>
        intro hq
        have hf0 : f0.1 ∈ rest.map Prod.fst := List.mem_map.mpr ⟨f0, hmem2, rfl⟩
        rw [hq] at hf0
        exact (List.nodup_cons.mp hnod).1 hf0

theorem fold_keyFind_diskboth (z : ZipData) (mime : List Nat → String)
    (f0 : List String × List Nat) (c : Nat)
    (hz : get_zip_checksum z f0.1 = some c) :
    ∀ (l : List (List String × List Nat)) (base : Info),
      f0 ∈ l → (l.map Prod.fst).Nodup →
      keyFind ((l.foldl (analyzeStep z mime) base).checksums) f0.1
        = some { zip := some c, extracted := some (calculate_file_checksum f0.2) } := by
  intro l
  induction l with
  | nil => intro base h _; cases h
  | cons f rest ih =>
    intro base hmem hnod
    rw [List.foldl_cons]
    rw [List.map_cons] at hnod
    rcases List.mem_cons.mp hmem with heq | hmem2
    · subst heq
      rw [fold_keyFind_ne z mime f0.1 rest _ ?hne2]
      · exact analyzeStep_keyFind_self_of_zipsome z mime base f0 c hz
      case hne2 =>
        intro f2 h2 hq
        have hf2 : f2.1 ∈ rest.map Prod.fst := List.mem_map.mpr ⟨f2, h2, rfl⟩
        rw [hq] at hf2
        exact (List.nodup_cons.mp hnod).1 hf2
    · exact ih (analyzeStep z mime base f) hmem2 (List.Nodup.of_cons hnod)

theorem analyze_checksums_eq (fs : FS) (dir : List String) (z : ZipData)
    (zp : List String) (mime : List Nat → String) :
    (analyze_extracted_content fs dir z zp mime).checksums
      = ((walkFiles fs dir).foldl (analyzeStep z mime) (initInfo fs dir zp)).checksums := by
  unfold analyze_extracted_content
  dsimp only

/-- A two-entry archive whose second entry is missing on disk in fsW2. -/
def zW4 : ZipData :=
  ZipData.valid
    [ { filename := ["f"], crc := crc32 [7, 8], data := [7, 8], isEntryDir := false },
      { filename := ["g"], crc := crc32 [9], data := [9], isEntryDir := false } ]

/-- Counterexample for C4: filesystem fsW2 has only file f under t/a while the
archive lists f and g; the claim says g (present only in the archive listing)
must appear in the checksum mapping with its archive checksum present, but the
code's mapping, built solely from the disk walk, has no key g at all. -/
theorem c4_counterexample :
    keyFind (analyze_extracted_content fsW2 ["t", "a"] zW4 ["t", "a.zip"] mimeW).checksums
      ["g"] = none := by
  rfl

/-- C4 (amended): the final checksum mapping is keyed by the on-disk extracted
files only (in walk order): a file present only in the archive listing does
not appear at all; a file present only on disk appears with the archive side
absent (None) and the extracted side present; a file present on both sides
carries both checksums; absence (None) is distinguishable from a genuine
checksum value of zero. -/
theorem c4_amended (fs : FS) (dir : List String) (z : ZipData) (zp : List String)
    (mime : List Nat → String)
    (hnod : ((walkFiles fs dir).map Prod.fst).Nodup) :
    ((analyze_extracted_content fs dir z zp mime).checksums.map Prod.fst
        = (walkFiles fs dir).map Prod.fst)
  ∧ (∀ f ∈ walkFiles fs dir, get_zip_checksum z f.1 = none →
        keyFind (analyze_extracted_content fs dir z zp mime).checksums f.1
          = some { zip := none, extracted := some (calculate_file_checksum f.2) })
  ∧ (∀ f ∈ walkFiles fs dir, ∀ c, get_zip_checksum z f.1 = some c →
        keyFind (analyze_extracted_content fs dir z zp mime).checksums f.1
          = some { zip := some c, extracted := some (calculate_file_checksum f.2) })
  ∧ ((none : Option Nat) ≠ some 0) := by
  refine ⟨?_, ?_, ?_, by simp⟩
  · rw [analyze_checksums_eq]
    rw [fold_keys z mime (walkFiles fs dir) (initInfo fs dir zp)
      (fun f _ => by simp [initInfo]) hnod]
    simp [initInfo]
  · intro f hf hz
    rw [analyze_checksums_eq]
    exact fold_keyFind_diskonly z mime f hz (walkFiles fs dir) (initInfo fs dir zp)
      hf hnod (by rfl)
  · intro f hf c hz
    rw [analyze_checksums_eq]
    exact fold_keyFind_diskboth z mime f c hz (walkFiles fs dir) (initInfo fs dir zp)
      hf hnod

/-- Witness for C4 (amended): against an empty archive listing, the on-disk
file f still appears in the mapping, with the archive side None and the
extracted side its computed CRC. -/
theorem c4_amended_witness :
    keyFind (analyze_extracted_content fsW2 ["t", "a"] (ZipData.valid [])
        ["t", "a.zip"] mimeW).checksums ["f"]
      = some { zip := none, extracted := some (calculate_file_checksum [7, 8]) } :=
  (c4_amended fsW2 ["t", "a"] (ZipData.valid []) ["t", "a.zip"] mimeW
      (by decide)).2.1 (["f"], [7, 8]) (by decide) (by rfl)

/-! Shape of the filesystem and walk after a full successful extraction. -/

theorem startsWith_append_self : ∀ (d r : List String), startsWith d (d ++ r) = true
  | [], _ => rfl
  | a :: as, r => by
    rw [List.cons_append]
    unfold startsWith
    rw [if_pos rfl]
    exact startsWith_append_self as r

theorem extractEntry_files_of_dirEntry (fs : FS) (dir : List String) (e : ZipEntry)
    (h : e.isEntryDir = true) : (extractEntry fs dir e).files = fs.files := by
  unfold extractEntry
  rw [if_pos h]
  rfl

theorem extractEntry_files_of_file (fs : FS) (dir : List String) (e : ZipEntry)
    (h : e.isEntryDir = false) :
    (extractEntry fs dir e).files = keySet fs.files (dir ++ e.filename) e.data := by
  unfold extractEntry
  rw [if_neg (by simp [h])]
  rfl

theorem foldl_extract_files (dir : List String) :
    ∀ (l : List ZipEntry) (g : FS),
      (∀ e ∈ l, e.isEntryDir = false → (dir ++ e.filename) ∉ g.files.map Prod.fst) →
      ((l.map (fun e => dir ++ e.filename)).Nodup) →
      ((l.foldl (fun a e => extractEntry a dir e) g)).files
        = g.files ++ (l.filter (fun e => !e.isEntryDir)).map
            (fun e => (dir ++ e.filename, e.data)) := by
  intro l
  induction l with
  | nil => intro g _ _; simp
  | cons e rest ih =>
    intro g hfresh hnod
    rw [List.foldl_cons]
    rw [List.map_cons] at hnod
    by_cases hd : e.isEntryDir = true
    · have hfe := extractEntry_files_of_dirEntry g dir e hd
      rw [ih (extractEntry g dir e) ?f1 (List.Nodup.of_cons hnod)]
      · rw [hfe, List.filter_cons]
        simp [hd]
      case f1 =>
        intro e2 h2 hfile
        rw [hfe]
        exact hfresh e2 (List.mem_cons_of_mem _ h2) hfile
    · have hd2 : e.isEntryDir = false := by
        revert hd
        cases e.isEntryDir <;> simp
      have hkey := hfresh e (List.mem_cons_self _ _) hd2
      have hfe : (extractEntry g dir e).files
          = g.files ++ [(dir ++ e.filename, e.data)] := by
        rw [extractEntry_files_of_file g dir e hd2]
        exact keySet_of_not_mem g.files e.data hkey
      rw [ih (extractEntry g dir e) ?f2 (List.Nodup.of_cons hnod)]
      · rw [hfe, List.filter_cons]
        simp only [hd2, Bool.not_false, if_true]
        rw [List.append_assoc, List.singleton_append, List.map_cons]
      case f2 =>
        intro e2 h2 hfile
        rw [hfe, List.map_append, List.mem_append]
        rintro (hin | hin)
        · exact hfresh e2 (List.mem_cons_of_mem _ h2) hfile hin
        · simp only [List.map_cons, List.map_nil, List.mem_singleton] at hin
          have hmm : dir ++ e2.filename ∈ rest.map (fun e => dir ++ e.filename) :=
            List.mem_map.mpr ⟨e2, h2, rfl⟩
          rw [hin] at hmm
          exact (List.nodup_cons.mp hnod).1 hmm

theorem walkFiles_unzip_valid (fs : FS) (entries : List ZipEntry) (td zp : List String)
    (hclean : walkFiles fs (extractionDirOf td zp) = [])
    (hnodn : (entries.map (fun e => e.filename)).Nodup)
    (hne : ∀ e ∈ entries, e.isEntryDir = false → e.filename ≠ []) :
    walkFiles (unzip fs (ZipData.valid entries) none td zp).2 (extractionDirOf td zp)
      = (entries.filter (fun e => !e.isEntryDir)).map (fun e => (e.filename, e.data)) := by
  have hfilter : fs.files.filter
      (fun e => startsWith (extractionDirOf td zp) e.1
        && decide ((extractionDirOf td zp).length < e.1.length)) = [] := by
    unfold walkFiles at hclean
    exact List.map_eq_nil_iff.mp hclean
  have hbase := List.filter_eq_nil_iff.mp hfilter
  have hnodk : (entries.map (fun e => extractionDirOf td zp ++ e.filename)).Nodup := by
    have hcomp : entries.map (fun e => extractionDirOf td zp ++ e.filename)
        = (entries.map (fun e => e.filename)).map
            (fun fn => extractionDirOf td zp ++ fn) := by
      rw [List.map_map]
      rfl
    rw [hcomp]
    exact List.Nodup.map (fun a b hab => List.append_cancel_left hab) hnodn
  have hpred : ∀ e ∈ entries, e.isEntryDir = false →
      (startsWith (extractionDirOf td zp) (extractionDirOf td zp ++ e.filename)
        && decide ((extractionDirOf td zp).length
            < (extractionDirOf td zp ++ e.filename).length)) = true := by
    intro e he hf
    rw [startsWith_append_self, List.length_append]
    have hlen : 0 < e.filename.length := List.length_pos.mpr (hne e he hf)
    simp
    omega
  have hfresh : ∀ e ∈ entries, e.isEntryDir = false →
      (extractionDirOf td zp ++ e.filename) ∉ (mkdirP fs (extractionDirOf td zp)).files.map Prod.fst := by
    intro e he hf hmem
    rcases List.mem_map.mp hmem with ⟨q, hq, hq1⟩
    apply hbase q hq
    have hq2 : q.1 = extractionDirOf td zp ++ e.filename := hq1
    rw [hq2]
    exact hpred e he hf
  have hfiles : (unzip fs (ZipData.valid entries) none td zp).2.files
      = fs.files ++ (entries.filter (fun e => !e.isEntryDir)).map
          (fun e => (extractionDirOf td zp ++ e.filename, e.data)) := by
    show ((entries.foldl (fun a e => extractEntry a (extractionDirOf td zp) e)
        (mkdirP fs (extractionDirOf td zp)))).files = _
    rw [foldl_extract_files (extractionDirOf td zp) entries
      (mkdirP fs (extractionDirOf td zp)) hfresh hnodk]
    rfl
  unfold walkFiles
  rw [hfiles, List.filter_append, hfilter, List.nil_append]
  have hpass : ((entries.filter (fun e => !e.isEntryDir)).map
        (fun e => (extractionDirOf td zp ++ e.filename, e.data))).filter
      (fun e => startsWith (extractionDirOf td zp) e.1
        && decide ((extractionDirOf td zp).length < e.1.length))
      = (entries.filter (fun e => !e.isEntryDir)).map
          (fun e => (extractionDirOf td zp ++ e.filename, e.data)) := by
    apply List.filter_eq_self.mpr
    intro a ha
    rcases List.mem_map.mp ha with ⟨e, hef, heq⟩
    have hee : e ∈ entries := List.mem_of_mem_filter hef
    have hfe : e.isEntryDir = false := by
      have := List.of_mem_filter hef
      revert this
      cases e.isEntryDir <;> simp
    rw [← heq]
    exact hpred e hee hfe
  rw [hpass, List.map_map]
  apply List.map_congr_left
  intro e hef
  have hee : e ∈ entries := List.mem_of_mem_filter hef
  show ((extractionDirOf td zp ++ e.filename).drop (extractionDirOf td zp).length, e.data)
      = (e.filename, e.data)
  rw [List.drop_left]

/-! Zip name lookup under distinct entry names. -/

theorem findEntry_of_mem_nodup :
    ∀ (l : List ZipEntry) (e : ZipEntry), e ∈ l →
      (l.map (fun x => x.filename)).Nodup → findEntry l e.filename = some e := by
  intro l
  induction l with
  | nil => intro e h _; cases h
  | cons a rest ih =>
    intro e hmem hnod
    rw [List.map_cons] at hnod
    rcases List.mem_cons.mp hmem with heq | hmem2
    · subst heq
      unfold findEntry
      rw [if_pos rfl]
    · have hne2 : ¬ a.filename = e.filename := by
        intro hh
        have hfn : e.filename ∈ rest.map (fun x => x.filename) :=
          List.mem_map.mpr ⟨e, hmem2, rfl⟩
        rw [← hh] at hfn
        exact (List.nodup_cons.mp hnod).1 hfn
      unfold findEntry
      rw [if_neg hne2]
      exact ih e hmem2 (List.Nodup.of_cons hnod)

theorem get_zip_checksum_of_mem_nodup (entries : List ZipEntry) (e : ZipEntry)
    (hmem : e ∈ entries) (hnod : (entries.map (fun x => x.filename)).Nodup) :
    get_zip_checksum (ZipData.valid entries) e.filename = some e.crc := by
  unfold get_zip_checksum
  dsimp only
  rw [findEntry_of_mem_nodup entries.reverse e (List.mem_reverse.mpr hmem) ?hn]
  · rfl
  case hn =>
    rw [List.map_reverse]
    exact List.nodup_reverse.mpr hnod

/-! The all-records-matching invariant through the analysis fold. -/

theorem analyzeStep_matching (z : ZipData) (mime : List Nat → String)
    (info : Info) (f : List String × List Nat)
    (hf : get_zip_checksum z f.1 = some (calculate_file_checksum f.2))
    (hinv : ∀ r ∈ info.checksums, r.2.zip.isSome = true ∧ r.2.zip = r.2.extracted) :
    ∀ r ∈ (analyzeStep z mime info f).checksums,
      r.2.zip.isSome = true ∧ r.2.zip = r.2.extracted := by
  intro r hr
  rw [analyzeStep_checksums_of_zipsome z mime info f _ hf] at hr
  rcases mem_keySet hr with ⟨hin, hne⟩ | hv
  · rcases mem_setExtracted hin with hin2 | hk
    · exact hinv r hin2
    · exact absurd hk hne
  · rw [hv]
    exact ⟨rfl, rfl⟩

theorem fold_matching (z : ZipData) (mime : List Nat → String) :
    ∀ (l : List (List String × List Nat)) (base : Info),
      (∀ f ∈ l, get_zip_checksum z f.1 = some (calculate_file_checksum f.2)) →
      (∀ r ∈ base.checksums, r.2.zip.isSome = true ∧ r.2.zip = r.2.extracted) →
      ∀ r ∈ (l.foldl (analyzeStep z mime) base).checksums,
        r.2.zip.isSome = true ∧ r.2.zip = r.2.extracted := by
  intro l
  induction l with
  | nil => intro base _ hb; exact hb
  | cons f rest ih =>
    intro base hl hb
    rw [List.foldl_cons]
    exact ih _ (fun f2 h2 => hl f2 (List.mem_cons_of_mem _ h2))
      (analyzeStep_matching z mime base f (hl f (List.mem_cons_self _ _)) hb)

theorem mismatched_eq_zero_of_all (m : List (List String × ChecksumPair))
    (h : ∀ r ∈ m, r.2.zip = r.2.extracted) : mismatched_checksums m = 0 := by
  unfold mismatched_checksums matching_checksums
  have heq : m.filter (fun r => decide (r.2.zip = r.2.extracted)) = m :=
    List.filter_eq_self.mpr (fun a ha => by
      rw [decide_eq_true_eq]
      exact h a ha)
  rw [heq, Nat.sub_self]

/-- C6: for an uncorrupted archive (each stored CRC equals the CRC-32 of its
entry's bytes, entry names distinct and nonempty) extracted without error into
a previously empty destination, every checksum record has both sides present
and numerically equal, and the reported mismatched-checksum count is zero. -/
theorem c6_round_trip (fs : FS) (entries : List ZipEntry) (td zp : List String)
    (mime : List Nat → String)
    (hnod : (entries.map (fun e => e.filename)).Nodup)
    (hcrc : ∀ e ∈ entries, e.crc = crc32 e.data)
    (hne : ∀ e ∈ entries, e.isEntryDir = false → e.filename ≠ [])
    (hclean : walkFiles fs (extractionDirOf td zp) = []) :
    (∀ r ∈ (analyze_extracted_content (unzip fs (ZipData.valid entries) none td zp).2
          (extractionDirOf td zp) (ZipData.valid entries) zp mime).checksums,
        r.2.zip.isSome = true ∧ r.2.extracted.isSome = true ∧ r.2.zip = r.2.extracted)
  ∧ mismatched_checksums (analyze_extracted_content
        (unzip fs (ZipData.valid entries) none td zp).2
        (extractionDirOf td zp) (ZipData.valid entries) zp mime).checksums = 0 := by
  have hwalk := walkFiles_unzip_valid fs entries td zp hclean hnod hne
  have hzipok : ∀ f ∈ walkFiles (unzip fs (ZipData.valid entries) none td zp).2
      (extractionDirOf td zp),
      get_zip_checksum (ZipData.valid entries) f.1
        = some (calculate_file_checksum f.2) := by
    intro f hf
    rw [hwalk] at hf
    rcases List.mem_map.mp hf with ⟨e, hef, heq⟩
    have hee : e ∈ entries := List.mem_of_mem_filter hef
    rw [← heq]
    show get_zip_checksum (ZipData.valid entries) e.filename
        = some (calculate_file_checksum e.data)
    rw [get_zip_checksum_of_mem_nodup entries e hee hnod]
    rw [hcrc e hee, calculate_file_checksum_eq_crc32]
  have hall : ∀ r ∈ (analyze_extracted_content
      (unzip fs (ZipData.valid entries) none td zp).2
      (extractionDirOf td zp) (ZipData.valid entries) zp mime).checksums,
      r.2.zip.isSome = true ∧ r.2.zip = r.2.extracted := by
    rw [analyze_checksums_eq]
    refine fold_matching _ mime _ _ hzipok ?_
    intro r hr
    simp [initInfo] at hr
  constructor
  · intro r hr
    obtain ⟨h1, h2⟩ := hall r hr
    refine ⟨h1, ?_, h2⟩
    rw [← h2]
    exact h1
  · apply mismatched_eq_zero_of_all
    intro r hr
    exact (hall r hr).2

/-- The single-entry archive for the C6 witness. -/
def entriesW6 : List ZipEntry :=
  [ { filename := ["w.txt"], crc := crc32 [10, 20], data := [10, 20],
      isEntryDir := false } ]

/-- A filesystem holding only the archive t/c.zip (nothing under t/c). -/
def fsW6 : FS :=
  { files := [(["t", "c.zip"], [80, 75, 1])]
    dirs := [["t"]]
    resolveLinks := []
    failRemove := [] }

/-- Witness for C6: extracting the uncorrupted single-entry archive t/c.zip
into the empty destination t/c yields zero mismatched checksums. -/
theorem c6_round_trip_witness :
    mismatched_checksums (analyze_extracted_content
      (unzip fsW6 (ZipData.valid entriesW6) none ["t"] ["t", "c.zip"]).2
      (extractionDirOf ["t"] ["t", "c.zip"]) (ZipData.valid entriesW6)
      ["t", "c.zip"] mimeW).checksums = 0 :=
  (c6_round_trip fsW6 entriesW6 ["t"] ["t", "c.zip"] mimeW
    (by decide)
    (by
      intro e he
      simp only [entriesW6, List.mem_singleton] at he
      subst he
      rfl)
    (by
      intro e he hf
      simp only [entriesW6, List.mem_singleton] at he
      subst he
      simp)
    (by rfl)).2

end Unzippy
